import Mathlib

/-!
# NetworkTime: the NTP timestamp codec, the client exchange and the orchestrator

A shallow embedding of `src/NetworkTime.h`.

* Machine integers are `Nat`/`Int` with explicit reduction: `toU32` for a
  conversion to `quint32`, `wrapI64` for the result of a `qint64` operation,
  `toU64` for a conversion to a 64-bit `size_t`.
* C++ `/` and `%` on signed operands are `Int.tdiv` and `Int.tmod` (truncation
  toward zero, remainder with the sign of the dividend).
* The packed structs are kept with their fields; `toBytes` gives their object
  representation (`#pragma pack(push, 1)`, so no padding), which is what
  `reinterpret_cast<const char *>` exposes to the socket.
* The socket, the system clock and the resolver are external; they are an
  explicit environment `Env` of scripted answers, and the client carries the
  cursors into that script.
-/

namespace qntp

/-! ## Machine integers -/

/-- Conversion of a signed value to `quint32`: reduction modulo `2^32`. -/
def toU32 (z : Int) : Nat := (z % 4294967296).toNat

/-- Conversion of a signed value to an unsigned 64-bit `size_t`. -/
def toU64 (z : Int) : Nat := (z % 18446744073709551616).toNat

/-- Result of a `qint64` operation whose mathematical value is `z`
(two's complement wrap-around into `[-2^63, 2^63)`). -/
def wrapI64 (z : Int) : Int :=
  (z + 9223372036854775808) % 18446744073709551616 - 9223372036854775808

/-! ## Host byte order -/

/-- Byte order of the host the code is compiled for. -/
inductive ByteOrder where
  | little
  | big
  deriving DecidableEq, Repr

/-- Byte swap of a 32-bit word. -/
def bswap32 (x : Nat) : Nat :=
  (x % 256) * 16777216 + (x / 256 % 256) * 65536 + (x / 65536 % 256) * 256 + x / 16777216 % 256

/-- Models `qToBigEndian<quint32>`: a swap on a little-endian host, the identity on a
big-endian one. -/
def qToBigEndian (e : ByteOrder) (x : Nat) : Nat :=
  match e with
  | .little => bswap32 x
  | .big => x

/-- Models `qFromBigEndian<quint32>`: the same operation as `qToBigEndian`. -/
def qFromBigEndian (e : ByteOrder) (x : Nat) : Nat :=
  match e with
  | .little => bswap32 x
  | .big => x

/-- The four bytes a 32-bit word occupies in memory, lowest address first. -/
def store32 (e : ByteOrder) (x : Nat) : List Nat :=
  match e with
  | .little => [x % 256, x / 256 % 256, x / 65536 % 256, x / 16777216 % 256]
  | .big => [x / 16777216 % 256, x / 65536 % 256, x / 256 % 256, x % 256]

/-- Big-endian encoding of a 32-bit value: most significant byte first. -/
def beBytes32 (v : Nat) : List Nat :=
  [v / 16777216 % 256, v / 65536 % 256, v / 256 % 256, v % 256]

/-- The unsigned value four bytes denote when read big-endian. -/
def beValue32 : List Nat → Nat
  | [b0, b1, b2, b3] => b0 * 16777216 + b1 * 65536 + b2 * 256 + b3
  | _ => 0

/-! ## Date-times -/

/-- Models `Qt::TimeSpec`, as far as the code uses it. -/
inductive TimeSpec where
  | LocalTime
  | UTC
  deriving DecidableEq, Repr

/-- A `QDateTime`: the null date-time of the default constructor, or an instant
given by its milliseconds since the Unix epoch together with its time spec. -/
inductive QDateTime where
  | null
  | valid (msecs : Int) (spec : TimeSpec)
  deriving DecidableEq, Repr

namespace QDateTime

/-- Models `QDateTime::isNull`. -/
def isNull : QDateTime → Bool
  | null => true
  | valid _ _ => false

/-- Models `QDateTime::toMSecsSinceEpoch`. Qt documents the result for a date-time
that is not valid as undefined; the model returns `0` there. -/
def toMSecsSinceEpoch : QDateTime → Int
  | null => 0
  | valid m _ => m

/-- Models `QDateTime::fromMSecsSinceEpoch(msecs)`: the time spec defaults to local
time. -/
def fromMSecsSinceEpoch (msecs : Int) : QDateTime := valid msecs TimeSpec.LocalTime

end QDateTime

/-! ## Timestamp codec -/

/-- Models the enumerator `ClientMode = 3` of `enum NtpMode`. -/
def ClientMode : Nat := 3

/-- Models `detail::january_1_1900`: the NTP epoch in Unix milliseconds. -/
def january_1_1900 : Int := -2208988800000

/-- Models `struct NtpTimestamp`: two `quint32` fields, each holding the host word
whose memory bytes are the big-endian encoding of the value. -/
structure NtpTimestamp where
  seconds : Nat
  fraction : Nat
  deriving DecidableEq, Repr

namespace NtpTimestamp

/-- Models `NtpTimestamp::fromDateTime`. -/
def fromDateTime (e : ByteOrder) (dateTime : QDateTime) : NtpTimestamp :=
  let ntpMSecs : Int := wrapI64 (dateTime.toMSecsSinceEpoch - january_1_1900)
  let seconds : Nat := toU32 (Int.tdiv ntpMSecs 1000)
  let fraction : Nat := toU32 (Int.tdiv (wrapI64 (4294967296 * Int.tmod ntpMSecs 1000)) 1000)
  { seconds := qToBigEndian e seconds, fraction := qToBigEndian e fraction }

/-- Models `NtpTimestamp::toDateTime`. -/
def toDateTime (e : ByteOrder) (ntpTime : NtpTimestamp) : QDateTime :=
  let seconds : Nat := qFromBigEndian e ntpTime.seconds
  let fraction : Nat := qFromBigEndian e ntpTime.fraction
  let ntpMSecs : Int :=
    wrapI64 (wrapI64 ((seconds : Int) * 1000)
      + Int.tdiv (wrapI64 ((fraction : Int) * 1000)) 4294967296)
  QDateTime.fromMSecsSinceEpoch (wrapI64 (ntpMSecs + january_1_1900))

/-- Object representation of the struct: the two words in declaration order. -/
def toBytes (e : ByteOrder) (t : NtpTimestamp) : List Nat :=
  store32 e t.seconds ++ store32 e t.fraction

end NtpTimestamp

/-! ## Packet layout -/

/-- Conversion of a signed value to one byte (`qint8` object representation). -/
def toU8 (z : Int) : Nat := (z % 256).toNat

/-- Models `struct NtpPacketFlags`: three bit-fields sharing one byte. -/
structure NtpPacketFlags where
  mode : Nat
  versionNumber : Nat
  leapIndicator : Nat
  deriving DecidableEq, Repr

/-- What the compiler fixes: the host byte order, whether the first declared
bit-field of a byte takes the low-order bits (as the little-endian ABIs do) or
the high-order bits (as the big-endian ABIs do), and the width of `size_t`. -/
structure Platform where
  byteOrder : ByteOrder
  bitFieldsLowFirst : Bool
  sizeT64 : Bool
  deriving DecidableEq, Repr

/-- The byte the three bit-fields occupy. A field keeps only the bits of its
declared width (3, 3 and 2). The fields are declared in the order `mode`,
`versionNumber`, `leapIndicator`; their allocation inside the byte is left to
the compiler: from the low-order bit up, giving
`(leap << 6) | (version << 3) | mode`, or from the high-order bit down, giving
`(mode << 5) | (version << 2) | leap`. -/
def NtpPacketFlags.toByte (lowFirst : Bool) (f : NtpPacketFlags) : Nat :=
  if lowFirst then f.mode % 8 + 8 * (f.versionNumber % 8) + 64 * (f.leapIndicator % 4)
  else 32 * (f.mode % 8) + 4 * (f.versionNumber % 8) + f.leapIndicator % 4

/-- Models `struct NtpPacket` (packed). -/
structure NtpPacket where
  flags : NtpPacketFlags
  stratum : Nat
  poll : Int
  precision : Int
  rootDelay : Int
  rootDispersion : Int
  referenceID : List Int
  referenceTimestamp : NtpTimestamp
  originateTimestamp : NtpTimestamp
  receiveTimestamp : NtpTimestamp
  transmitTimestamp : NtpTimestamp
  deriving DecidableEq, Repr

namespace NtpPacket

/-- The packet after `std::memset(&packet, 0, sizeof(packet))`. -/
def zero : NtpPacket :=
  { flags := { mode := 0, versionNumber := 0, leapIndicator := 0 }
    stratum := 0
    poll := 0
    precision := 0
    rootDelay := 0
    rootDispersion := 0
    referenceID := [0, 0, 0, 0]
    referenceTimestamp := { seconds := 0, fraction := 0 }
    originateTimestamp := { seconds := 0, fraction := 0 }
    receiveTimestamp := { seconds := 0, fraction := 0 }
    transmitTimestamp := { seconds := 0, fraction := 0 } }

/-- Object representation of the packed struct on a platform: the fields in
declaration order, the bit-fields as the compiler allocates them, multi-byte
integers in host byte order. -/
def toBytes (pf : Platform) (p : NtpPacket) : List Nat :=
  [p.flags.toByte pf.bitFieldsLowFirst, p.stratum % 256, toU8 p.poll, toU8 p.precision]
    ++ store32 pf.byteOrder (toU32 p.rootDelay)
    ++ store32 pf.byteOrder (toU32 p.rootDispersion)
    ++ p.referenceID.map toU8
    ++ p.referenceTimestamp.toBytes pf.byteOrder
    ++ p.originateTimestamp.toBytes pf.byteOrder
    ++ p.receiveTimestamp.toBytes pf.byteOrder
    ++ p.transmitTimestamp.toBytes pf.byteOrder

end NtpPacket

/-- Models `sizeof(NtpPacket)`. -/
def sizeofNtpPacket : Nat := 48

/-- Models `sizeof(NtpFullPacket)`: the packet followed by the 20 bytes of
`NtpAuthenticationInfo` (a `quint32` key id and a 16-byte digest). -/
def sizeofNtpFullPacket : Nat := 68

/-- Models `struct NtpFullPacket` (packed), held as its object representation: the
code only ever fills it bytewise (`memset`, `readDatagram` into its address)
and copies it whole. -/
structure NtpFullPacket where
  bytes : List Nat
  deriving DecidableEq, Repr

/-- The full packet after `std::memset(&packet, 0, sizeof(packet))`. -/
def NtpFullPacket.zero : NtpFullPacket := { bytes := List.replicate sizeofNtpFullPacket 0 }

/-- Models `class NtpReply` with its shared `NtpReplyPrivate` payload. -/
structure NtpReply where
  packet : NtpFullPacket
  destinationTime : QDateTime
  deriving DecidableEq, Repr

namespace NtpReply

/-- Models `NtpReply::NtpReply()`: a zeroed packet and a default-constructed (null)
destination time. -/
def null : NtpReply := { packet := NtpFullPacket.zero, destinationTime := QDateTime.null }

/-- Models `NtpReply::isNull`. -/
def isNull (r : NtpReply) : Bool := r.destinationTime.isNull

end NtpReply

/-! ## The environment: platform, socket, clock, resolver -/

/-- A `QHostAddress`. -/
structure QHostAddress where
  ip : String
  deriving DecidableEq, Repr

/-- What the socket holds for one `readDatagram` call: a datagram with its
payload, or a read that fails. -/
inductive Incoming where
  | datagram (payload : List Nat)
  | failure
  deriving DecidableEq, Repr

/-- One call of `QUdpSocket::writeDatagram`: the bytes handed over and the
destination. -/
structure WriteCall where
  data : List Nat
  address : QHostAddress
  port : Nat
  deriving DecidableEq, Repr

/-- The external collaborators, as scripted answers.
* `bindOk`: whether `bind` in the constructor succeeds;
* `clock n`: the `n`-th reading of the system clock, in Unix milliseconds;
* `writeResult n w`: what the `n`-th `writeDatagram` call returns for `w`
  (the number of bytes sent, or `-1`);
* `readyRead n t`: the `n`-th `waitForReadyRead(t)`: `none` when it does not
  succeed within `t` milliseconds, `some ds` when it succeeds with `ds` having
  arrived;
* `addresses url`: `QHostInfo::fromName(url).addresses()`. -/
structure Env where
  platform : Platform
  bindOk : Bool
  clock : Nat → Int
  writeResult : Nat → WriteCall → Int
  readyRead : Nat → Int → Option (List Incoming)
  addresses : String → List QHostAddress

/-- Models `class NtpClient`: the socket `mSocket` (its state, its queue of pending
datagrams, the write calls it has received) and the cursors into the
environment. -/
structure NtpClient where
  env : Env
  bound : Bool
  pending : List Incoming
  written : List WriteCall
  clockReads : Nat
  waits : Nat

namespace NtpClient

/-- Models `NtpClient::NtpClient`: creates the socket and binds it to the wildcard
address, port 0. -/
def create (env : Env) : NtpClient :=
  { env := env, bound := env.bindOk, pending := [], written := [], clockReads := 0, waits := 0 }

/-- Models `QDateTime::currentDateTimeUtc()`. -/
def currentDateTimeUtc (c : NtpClient) : QDateTime × NtpClient :=
  (QDateTime.valid (c.env.clock c.clockReads) TimeSpec.UTC,
    { c with clockReads := c.clockReads + 1 })

/-- Models `QDateTime::currentDateTime()`. -/
def currentDateTime (c : NtpClient) : QDateTime × NtpClient :=
  (QDateTime.valid (c.env.clock c.clockReads) TimeSpec.LocalTime,
    { c with clockReads := c.clockReads + 1 })

/-- Models `mSocket->writeDatagram(data, len, address, port)`: hands the first `len`
bytes of `data` to the socket. -/
def writeDatagram (c : NtpClient) (data : List Nat) (len : Nat) (address : QHostAddress)
    (port : Nat) : Int × NtpClient :=
  let w : WriteCall := { data := data.take len, address := address, port := port }
  (c.env.writeResult c.written.length w, { c with written := c.written ++ [w] })

/-- Models `mSocket->waitForReadyRead(msecs)`. -/
def waitForReadyRead (c : NtpClient) (msecs : Int) : Bool × NtpClient :=
  match c.env.readyRead c.waits msecs with
  | none => (false, { c with waits := c.waits + 1 })
  | some ds => (true, { c with waits := c.waits + 1, pending := c.pending ++ ds })

/-- Models `mSocket->readDatagram(buf, maxSize, ..)` on the entry at the head of the
queue: the return value and the buffer afterwards. A datagram overwrites the
first `min(length, maxSize)` bytes and the rest of it is dropped; a failed
read returns `-1` and leaves the buffer as it was. -/
def readDatagram (x : Incoming) (buf : List Nat) (maxSize : Nat) : Int × List Nat :=
  match x with
  | .datagram d => ((min d.length maxSize : Nat), d.take maxSize ++ buf.drop (min d.length maxSize))
  | .failure => (-1, buf)

/-- The comparison `result < sizeof(..)` of a `qint64` with a `size_t`: with a
64-bit `size_t` the signed operand is converted to unsigned; with a 32-bit
one the `size_t` operand is converted to `qint64`. -/
def ltSizeof (p : Platform) (result : Int) (size : Nat) : Bool :=
  if p.sizeT64 then decide (toU64 result < size) else decide (result < (size : Int))

/-- Models `NtpClient::sendRequest`. -/
def sendRequest (c : NtpClient) (address : QHostAddress) (port : Nat) : Bool × NtpClient :=
  if c.bound ≠ true then (false, c)
  else
    let packet : NtpPacket := NtpPacket.zero
    let packet := { packet with flags := { packet.flags with mode := ClientMode } }
    let packet := { packet with flags := { packet.flags with versionNumber := 4 } }
    let now := c.currentDateTimeUtc
    let packet :=
      { packet with transmitTimestamp := NtpTimestamp.fromDateTime c.env.platform.byteOrder now.1 }
    let w := now.2.writeDatagram (packet.toBytes c.env.platform) sizeofNtpPacket
      address port
    if w.1 < 0 then (false, w.2) else (true, w.2)

/-- The loop of `NtpClient::readDatagrams` over the queue of pending
datagrams; every `readDatagram` call takes the entry at the head. -/
def readLoop (c : NtpClient) : List Incoming → NtpReply × NtpClient
  | [] => (NtpReply.null, { c with pending := [] })
  | x :: rest =>
    let r := readDatagram x NtpFullPacket.zero.bytes sizeofNtpFullPacket
    if ltSizeof c.env.platform r.1 sizeofNtpPacket then readLoop c rest
    else
      let now := currentDateTime { c with pending := rest }
      ({ packet := { bytes := r.2 }, destinationTime := now.1 }, now.2)

/-- Models `NtpClient::readDatagrams`. -/
def readDatagrams (c : NtpClient) : NtpReply × NtpClient := readLoop c c.pending

/-- Models `NtpClient::sendRequestBlock`. -/
def sendRequestBlock (c : NtpClient) (address : QHostAddress) (port : Nat) (timeoutMSec : Int) :
    NtpReply × NtpClient :=
  let s := c.sendRequest address port
  if s.1 = false then (NtpReply.null, s.2)
  else
    let w := s.2.waitForReadyRead timeoutMSec
    if w.1 = false then (NtpReply.null, w.2)
    else w.2.readDatagrams

end NtpClient

end qntp

/-! ## Orchestrator -/

namespace NetworkTime

open qntp

/-- The server list of `NetworkTime::current`. -/
def ntpServerUrls : List String :=
  ["s1a.time.edu.cn", "s1b.time.edu.cn", "s1c.time.edu.cn", "s1d.time.edu.cn",
    "s1e.time.edu.cn"]

/-- The inner loop of `NetworkTime::current` over the addresses of one host:
`some dt` when the function returns `dt` from inside the loop. -/
def tryAddresses (c : NtpClient) : List QHostAddress → Option QDateTime × NtpClient
  | [] => (none, c)
  | ha :: rest =>
    let r := c.sendRequestBlock ha 123 1000
    if r.1.isNull = false then (some r.1.destinationTime, r.2)
    else tryAddresses r.2 rest

/-- The outer loop of `NetworkTime::current` over the server names. -/
def tryUrls (c : NtpClient) : List String → QDateTime × NtpClient
  | [] => (QDateTime.null, c)
  | url :: rest =>
    match tryAddresses c (c.env.addresses url) with
    | (some dt, c1) => (dt, c1)
    | (none, c1) => tryUrls c1 rest

/-- Models `NetworkTime::current`, with the client it leaves behind. -/
def current (env : Env) : QDateTime × NtpClient :=
  tryUrls (NtpClient.create env) ntpServerUrls

/-- The candidates in the order `NetworkTime::current` meets them: the server
names in list order, each replaced by its addresses in resolution order. -/
def candidates (env : Env) : List QHostAddress :=
  (ntpServerUrls.map env.addresses).flatten

/-- Requests to the given addresses, one after the other, as long as every
reply is null: the client after the last of them, or `none` as soon as one
reply is not null. -/
def allNull (c : NtpClient) : List QHostAddress → Option NtpClient
  | [] => some c
  | a :: rest =>
    if (c.sendRequestBlock a 123 1000).1.isNull = true then
      allNull (c.sendRequestBlock a 123 1000).2 rest
    else none

end NetworkTime

/-! ## A concrete environment, for the worked instances -/

namespace qntp

/-- An environment on a little-endian platform with low-order-first bit-fields
and a 64-bit `size_t`, in which binding and writing succeed, the clock advances one
second per reading from the NTP epoch plus 1.5 s, the first wait times out and
every later wait brings a 10-byte datagram followed by a 48-byte one, and every
server name resolves to a single address. -/
def exampleEnv : Env :=
  { platform := { byteOrder := ByteOrder.little, bitFieldsLowFirst := true, sizeT64 := true }
    bindOk := true
    clock := fun n => 1500 + 1000 * (n : Int) - 2208988800000
    writeResult := fun _ w => (w.data.length : Int)
    readyRead := fun n _ =>
      if n = 0 then none
      else some [Incoming.datagram (List.replicate 10 7), Incoming.datagram (List.replicate 48 1)]
    addresses := fun url => [{ ip := url }] }

/-- A bound client of `exampleEnv` with nothing pending. -/
def exampleClient : NtpClient := NtpClient.create exampleEnv

end qntp

/-! ## Shared lemmas on the machine arithmetic -/

namespace qntp

theorem wrapI64_of_fits (z : Int) (hlo : -9223372036854775808 ≤ z)
    (hhi : z < 9223372036854775808) : wrapI64 z = z := by
  unfold wrapI64
  omega

theorem toU32_natCast (n : Nat) (h : n < 4294967296) : toU32 (n : Int) = n := by
  unfold toU32
  omega

theorem toU32_lt (z : Int) : toU32 z < 4294967296 := by
  unfold toU32
  omega

theorem tdiv_of_neg (a b : Int) (ha : a < 0) (hb : 0 ≤ b) : Int.tdiv a b = -((-a) / b) := by
  have h := Int.neg_tdiv (-a) b
  rw [neg_neg] at h
  rw [h, Int.tdiv_eq_ediv (by omega) hb]

theorem tmod_of_neg (a b : Int) (ha : a < 0) (hb : 0 ≤ b) : Int.tmod a b = -((-a) % b) := by
  rw [Int.tmod_def, tdiv_of_neg a b ha hb, Int.emod_def]
  ring

/-- The bytes of a word assembled from four bytes. -/
theorem bytes_of_word (b0 b1 b2 b3 : Nat) (h0 : b0 < 256) (h1 : b1 < 256) (h2 : b2 < 256)
    (h3 : b3 < 256) :
    (b0 * 16777216 + b1 * 65536 + b2 * 256 + b3) / 16777216 % 256 = b0
      ∧ (b0 * 16777216 + b1 * 65536 + b2 * 256 + b3) / 65536 % 256 = b1
      ∧ (b0 * 16777216 + b1 * 65536 + b2 * 256 + b3) / 256 % 256 = b2
      ∧ (b0 * 16777216 + b1 * 65536 + b2 * 256 + b3) % 256 = b3 := by
  refine ⟨by omega, by omega, by omega, by omega⟩

/-- A word below `2^32` is the sum of its four bytes. -/
theorem word_of_bytes (v : Nat) (h : v < 4294967296) :
    (v / 16777216 % 256) * 16777216 + (v / 65536 % 256) * 65536 + (v / 256 % 256) * 256
      + v % 256 = v := by
  have h1 : v / 65536 = v / 256 / 256 := by rw [Nat.div_div_eq_div_mul]
  have h2 : v / 16777216 = v / 256 / 256 / 256 := by
    rw [Nat.div_div_eq_div_mul, Nat.div_div_eq_div_mul]
  rw [h1, h2]
  omega

theorem store32_qToBigEndian (e : ByteOrder) (v : Nat) :
    store32 e (qToBigEndian e v) = beBytes32 v := by
  cases e
  · obtain ⟨h0, h1, h2, h3⟩ := bytes_of_word (v % 256) (v / 256 % 256) (v / 65536 % 256)
      (v / 16777216 % 256) (Nat.mod_lt _ (by decide)) (Nat.mod_lt _ (by decide))
      (Nat.mod_lt _ (by decide)) (Nat.mod_lt _ (by decide))
    simp only [store32, qToBigEndian, bswap32, beBytes32, h0, h1, h2, h3]
  · rfl

theorem qFromBigEndian_eq_beValue32 (e : ByteOrder) (x : Nat) (h : x < 4294967296) :
    qFromBigEndian e x = beValue32 (store32 e x) := by
  cases e
  · simp only [store32, qFromBigEndian, bswap32, beValue32]
  · simp only [store32, qFromBigEndian, beValue32]
    exact (word_of_bytes x h).symm

theorem beValue32_beBytes32 (v : Nat) (h : v < 4294967296) : beValue32 (beBytes32 v) = v := by
  simp only [beBytes32, beValue32]
  exact word_of_bytes v h

theorem qFromBigEndian_qToBigEndian (e : ByteOrder) (v : Nat) (h : v < 4294967296) :
    qFromBigEndian e (qToBigEndian e v) = v := by
  cases e
  · obtain ⟨h0, h1, h2, h3⟩ := bytes_of_word (v % 256) (v / 256 % 256) (v / 65536 % 256)
      (v / 16777216 % 256) (Nat.mod_lt _ (by decide)) (Nat.mod_lt _ (by decide))
      (Nat.mod_lt _ (by decide)) (Nat.mod_lt _ (by decide))
    simp only [qFromBigEndian, qToBigEndian]
    unfold bswap32
    rw [h0, h1, h2, h3]
    exact word_of_bytes v h
  · rfl

theorem qFromBigEndian_lt (e : ByteOrder) (x : Nat) (h : x < 4294967296) :
    qFromBigEndian e x < 4294967296 := by
  cases e
  · simp only [qFromBigEndian, bswap32]
    omega
  · exact h

/-- The fraction computed from a millisecond remainder fits 32 bits. -/
theorem fraction_bounds (r : Int) (h0 : 0 ≤ r) (h1 : r < 1000) :
    0 ≤ 4294967296 * r / 1000 ∧ 4294967296 * r / 1000 < 4294967296 := by
  constructor <;> omega

/-- Decoding the fraction computed from `r` gives `r` back when `125 ∣ r` and
`r - 1` otherwise. -/
theorem fraction_back (r : Int) :
    4294967296 * r / 1000 * 1000 / 4294967296 = if r % 125 = 0 then r else r - 1 := by
  by_cases hz : 4294967296 * r / 1000 * 1000 = 4294967296 * r
  · split <;> omega
  · split <;> omega

/-- The two values `fromDateTime` computes before the byte swap, for an NTP
millisecond count that fits a `qint64`. -/
theorem fromDateTime_fields (e : ByteOrder) (ms : Int) (spec : TimeSpec)
    (hlo : -9223372036854775808 ≤ ms) (hhi : ms < 9223372036854775808) :
    NtpTimestamp.fromDateTime e (QDateTime.valid (ms - 2208988800000) spec)
      = { seconds := qToBigEndian e (toU32 (Int.tdiv ms 1000)),
          fraction := qToBigEndian e (toU32 (Int.tdiv (4294967296 * Int.tmod ms 1000) 1000)) } := by
  have h1 : wrapI64 (ms - 2208988800000 - january_1_1900) = ms := by
    have : ms - 2208988800000 - january_1_1900 = ms := by
      unfold january_1_1900
      omega
    rw [this]
    exact wrapI64_of_fits ms hlo hhi
  have hb : -1000 < Int.tmod ms 1000 ∧ Int.tmod ms 1000 < 1000 := by
    rcases lt_or_le ms 0 with hneg | hpos
    · rw [tmod_of_neg ms 1000 hneg (by decide)]
      omega
    · rw [Int.tmod_eq_emod hpos (by decide)]
      omega
  have h2 : wrapI64 (4294967296 * Int.tmod ms 1000) = 4294967296 * Int.tmod ms 1000 := by
    apply wrapI64_of_fits <;> omega
  simp only [NtpTimestamp.fromDateTime, QDateTime.toMSecsSinceEpoch, h1, h2]

/-- The memory bytes of `fromDateTime` at or after the NTP epoch. -/
theorem fromDateTime_bytes_of_nonneg (e : ByteOrder) (ms : Int) (spec : TimeSpec)
    (h0 : 0 ≤ ms) (hhi : ms < 9223372036854775808) :
    (NtpTimestamp.fromDateTime e (QDateTime.valid (ms - 2208988800000) spec)).toBytes e
      = beBytes32 (toU32 (ms / 1000))
        ++ beBytes32 (toU32 (4294967296 * (ms % 1000) / 1000)) := by
  rw [fromDateTime_fields e ms spec (by omega) hhi]
  simp only [NtpTimestamp.toBytes, store32_qToBigEndian]
  rw [Int.tdiv_eq_ediv h0 (by decide), Int.tmod_eq_emod h0 (by decide),
    Int.tdiv_eq_ediv (by omega) (by decide)]

end qntp

/-! ## Timestamp codec: the claims -/

namespace qntp

/-- C1: round trip of the timestamp codec. For every date-time `dt` (Unix
milliseconds, any time spec, either host byte order) whose NTP second count
`floor((dt + 2208988800000) / 1000)` lies in `[0, 2^32)`,
`toDateTime (fromDateTime dt)` is a valid date-time `res` with
`0 ≤ dt - res ≤ 1` millisecond; more precisely `res = dt` when the millisecond
count is a multiple of 125 and `res = dt - 1` otherwise. -/
theorem roundTrip_within_one_millisecond (e : ByteOrder) (dt : Int) (spec : TimeSpec)
    (hlo : 0 ≤ (dt + 2208988800000) / 1000) (hhi : (dt + 2208988800000) / 1000 < 4294967296) :
    (NtpTimestamp.toDateTime e (NtpTimestamp.fromDateTime e (QDateTime.valid dt spec))).isNull
        = false
      ∧ 0 ≤ dt - (NtpTimestamp.toDateTime e
          (NtpTimestamp.fromDateTime e (QDateTime.valid dt spec))).toMSecsSinceEpoch
      ∧ dt - (NtpTimestamp.toDateTime e
          (NtpTimestamp.fromDateTime e (QDateTime.valid dt spec))).toMSecsSinceEpoch ≤ 1
      ∧ (NtpTimestamp.toDateTime e
          (NtpTimestamp.fromDateTime e (QDateTime.valid dt spec))).toMSecsSinceEpoch
          = if (dt + 2208988800000) % 125 = 0 then dt else dt - 1 := by
  have hms0 : 0 ≤ dt + 2208988800000 := by omega
  have hms1 : dt + 2208988800000 < 4294967296000 := by omega
  obtain ⟨ms, rfl⟩ : ∃ ms : Int, dt = ms - 2208988800000 := ⟨dt + 2208988800000, by omega⟩
  clear hlo hhi
  have hms0 : 0 ≤ ms := by omega
  have hms1 : ms < 4294967296000 := by omega
  rw [fromDateTime_fields e ms spec (by omega) (by omega)]
  rw [Int.tdiv_eq_ediv hms0 (by decide), Int.tmod_eq_emod hms0 (by decide)]
  have hr0 : 0 ≤ ms % 1000 := by omega
  have hr1 : ms % 1000 < 1000 := by omega
  obtain ⟨hF0, hF1⟩ := fraction_bounds (ms % 1000) hr0 hr1
  have hback := fraction_back (ms % 1000)
  have hq0 : 0 ≤ ms / 1000 := by omega
  have hq1 : ms / 1000 < 4294967296 := by omega
  have hqr : ms / 1000 * 1000 + ms % 1000 = ms := by omega
  have h125 : (ms % 1000 % 125 = 0) ↔ ((ms - 2208988800000 + 2208988800000) % 125 = 0) := by
    omega
  generalize ms % 1000 = r at *
  generalize ms / 1000 = q at *
  rw [Int.tdiv_eq_ediv (by omega) (by decide)]
  generalize 4294967296 * r / 1000 = F at *
  have hs : toU32 q = q.toNat := by
    unfold toU32
    omega
  have hf : toU32 F = F.toNat := by
    unfold toU32
    omega
  have hsl : q.toNat < 4294967296 := by omega
  have hfl : F.toNat < 4294967296 := by omega
  simp only [NtpTimestamp.toDateTime, hs, hf, qFromBigEndian_qToBigEndian e _ hsl,
    qFromBigEndian_qToBigEndian e _ hfl]
  have hsc : ((q.toNat : Nat) : Int) = q := by omega
  have hfc : ((F.toNat : Nat) : Int) = F := by omega
  rw [hsc, hfc]
  have w1 : wrapI64 (q * 1000) = q * 1000 := by
    apply wrapI64_of_fits <;> omega
  have w2 : wrapI64 (F * 1000) = F * 1000 := by
    apply wrapI64_of_fits <;> omega
  rw [w1, w2, Int.tdiv_eq_ediv (by omega) (by decide), hback]
  have hG : (if r % 125 = 0 then r else r - 1) = r ∨ (if r % 125 = 0 then r else r - 1) = r - 1 := by
    split
    · exact Or.inl rfl
    · exact Or.inr rfl
  have w3 : wrapI64 (q * 1000 + if r % 125 = 0 then r else r - 1)
      = q * 1000 + if r % 125 = 0 then r else r - 1 := by
    apply wrapI64_of_fits <;> omega
  rw [w3]
  have w4 : wrapI64 (q * 1000 + (if r % 125 = 0 then r else r - 1) + january_1_1900)
      = q * 1000 + (if r % 125 = 0 then r else r - 1) + january_1_1900 := by
    unfold january_1_1900
    apply wrapI64_of_fits <;> omega
  rw [w4]
  simp only [QDateTime.fromMSecsSinceEpoch, QDateTime.isNull, QDateTime.toMSecsSinceEpoch,
    january_1_1900]
  refine ⟨trivial, by omega, by omega, ?_⟩
  by_cases hc : r % 125 = 0
  · rw [if_pos hc, if_pos (h125.mp hc)]
    omega
  · rw [if_neg hc, if_neg (fun h => hc (h125.mpr h))]
    omega

/-- Witness of C1 at Unix millisecond 1 (NTP millisecond 2208988800001): the
round trip gives Unix millisecond 0. -/
theorem roundTrip_within_one_millisecond_witness :
    (0 : Int) ≤ (1 + 2208988800000) / 1000 ∧ ((1 : Int) + 2208988800000) / 1000 < 4294967296
      ∧ (NtpTimestamp.toDateTime ByteOrder.little (NtpTimestamp.fromDateTime ByteOrder.little
          (QDateTime.valid 1 TimeSpec.UTC))).toMSecsSinceEpoch = 0 :=
  ⟨by decide, by decide,
    (roundTrip_within_one_millisecond ByteOrder.little 1 TimeSpec.UTC (by decide)
      (by decide)).2.2.2.trans (by decide)⟩

/-- C7, refuted as stated: at the date-time one millisecond before the NTP
epoch (`ms = -1`) the stored bytes are not the big-endian encodings of
`floor(ms / 1000)` and `floor(2^32 * (ms mod 1000) / 1000)` with the remainder
in `[0, 1000)`: the code stores seconds `0` and fraction `2^32 - 4294967`,
the floor formula gives `2^32 - 1` and `4290672328`. -/
theorem fromDateTime_floor_counterexample :
    (NtpTimestamp.fromDateTime ByteOrder.little
        (QDateTime.valid (-1 - 2208988800000) TimeSpec.UTC)).toBytes ByteOrder.little
        = [0, 0, 0, 0, 255, 190, 118, 201]
      ∧ (NtpTimestamp.fromDateTime ByteOrder.little
        (QDateTime.valid (-1 - 2208988800000) TimeSpec.UTC)).toBytes ByteOrder.little
        ≠ beBytes32 (toU32 ((-1 : Int) / 1000))
          ++ beBytes32 (toU32 (4294967296 * ((-1 : Int) % 1000) / 1000))
      ∧ beBytes32 (toU32 ((-1 : Int) / 1000))
          ++ beBytes32 (toU32 (4294967296 * ((-1 : Int) % 1000) / 1000))
        = [255, 255, 255, 255, 255, 190, 118, 200] := by
  decide

/-- C7 (amended): for every date-time whose NTP millisecond count
`ms = dt + 2208988800000` fits a signed 64-bit integer, the eight bytes of
`fromDateTime dt` are two big-endian 32-bit fields. When `0 ≤ ms` they are
`floor(ms / 1000) mod 2^32` and `floor(2^32 * (ms mod 1000) / 1000)`; when
`ms < 0` the division truncates toward zero and the remainder takes the sign
of `ms`, so they are `(-floor(-ms / 1000)) mod 2^32` and
`(-floor(2^32 * (-ms mod 1000) / 1000)) mod 2^32`. -/
theorem fromDateTime_encoding (e : ByteOrder) (ms : Int) (spec : TimeSpec)
    (hlo : -9223372036854775808 ≤ ms) (hhi : ms < 9223372036854775808) :
    (0 ≤ ms →
        (NtpTimestamp.fromDateTime e (QDateTime.valid (ms - 2208988800000) spec)).toBytes e
          = beBytes32 (toU32 (ms / 1000))
            ++ beBytes32 (toU32 (4294967296 * (ms % 1000) / 1000)))
      ∧ (ms < 0 →
        (NtpTimestamp.fromDateTime e (QDateTime.valid (ms - 2208988800000) spec)).toBytes e
          = beBytes32 (toU32 (-(-ms / 1000)))
            ++ beBytes32 (toU32 (-(4294967296 * (-ms % 1000) / 1000)))) := by
  constructor
  · intro h0
    exact fromDateTime_bytes_of_nonneg e ms spec h0 hhi
  · intro hneg
    rw [fromDateTime_fields e ms spec hlo hhi]
    simp only [NtpTimestamp.toBytes, store32_qToBigEndian]
    rw [tdiv_of_neg ms 1000 hneg (by decide), tmod_of_neg ms 1000 hneg (by decide)]
    have hm : (4294967296 : Int) * -(-ms % 1000) = -(4294967296 * (-ms % 1000)) := by ring
    rw [hm, Int.neg_tdiv, Int.tdiv_eq_ediv (by omega) (by decide)]

/-- Witness of C7 (amended) at `ms = 1500` and at `ms = -1`. -/
theorem fromDateTime_encoding_witness :
    (NtpTimestamp.fromDateTime ByteOrder.little
        (QDateTime.valid (1500 - 2208988800000) TimeSpec.UTC)).toBytes ByteOrder.little
        = [0, 0, 0, 1, 128, 0, 0, 0]
      ∧ (NtpTimestamp.fromDateTime ByteOrder.little
        (QDateTime.valid (-1 - 2208988800000) TimeSpec.UTC)).toBytes ByteOrder.little
        = [0, 0, 0, 0, 255, 190, 118, 201] :=
  ⟨((fromDateTime_encoding ByteOrder.little 1500 TimeSpec.UTC (by decide) (by decide)).1
      (by decide)).trans (by decide),
    ((fromDateTime_encoding ByteOrder.little (-1) TimeSpec.UTC (by decide) (by decide)).2
      (by decide)).trans (by decide)⟩

/-- C8: decoding formula. For every timestamp whose two fields are 32-bit
words, with `seconds` and `fraction` the big-endian values of its first and
last four memory bytes, `toDateTime` returns the instant whose Unix
millisecond count is exactly
`seconds * 1000 + floor(fraction * 1000 / 2^32) - 2208988800000`: none of the
`qint64` operations wraps. -/
theorem toDateTime_decoding (e : ByteOrder) (ts : NtpTimestamp)
    (hs : ts.seconds < 4294967296) (hf : ts.fraction < 4294967296) :
    NtpTimestamp.toDateTime e ts
      = QDateTime.fromMSecsSinceEpoch
          ((beValue32 ((ts.toBytes e).take 4) : Int) * 1000
            + (beValue32 ((ts.toBytes e).drop 4) : Int) * 1000 / 4294967296
            - 2208988800000) := by
  have hb1 : (ts.toBytes e).take 4 = store32 e ts.seconds := by
    cases e <;> rfl
  have hb2 : (ts.toBytes e).drop 4 = store32 e ts.fraction := by
    cases e <;> rfl
  rw [hb1, hb2, ← qFromBigEndian_eq_beValue32 e _ hs, ← qFromBigEndian_eq_beValue32 e _ hf]
  have hS := qFromBigEndian_lt e _ hs
  have hF := qFromBigEndian_lt e _ hf
  unfold NtpTimestamp.toDateTime
  generalize qFromBigEndian e ts.seconds = S at *
  generalize qFromBigEndian e ts.fraction = F at *
  have w1 : wrapI64 ((S : Int) * 1000) = (S : Int) * 1000 := by
    apply wrapI64_of_fits <;> omega
  have w2 : wrapI64 ((F : Int) * 1000) = (F : Int) * 1000 := by
    apply wrapI64_of_fits <;> omega
  have w3 : wrapI64 ((S : Int) * 1000 + (F : Int) * 1000 / 4294967296)
      = (S : Int) * 1000 + (F : Int) * 1000 / 4294967296 := by
    apply wrapI64_of_fits <;> omega
  have w4 : wrapI64 ((S : Int) * 1000 + (F : Int) * 1000 / 4294967296 + january_1_1900)
      = (S : Int) * 1000 + (F : Int) * 1000 / 4294967296 - 2208988800000 := by
    unfold january_1_1900
    rw [wrapI64_of_fits] <;> omega
  simp only [w1, w2, Int.tdiv_eq_ediv (show (0 : Int) ≤ (F : Int) * 1000 by omega)
    (show (0 : Int) ≤ 4294967296 by decide), w3, w4]

/-- Witness of C8: seconds `2208988800` and fraction `0x80000000` decode to
Unix millisecond 500. -/
theorem toDateTime_decoding_witness :
    (2208988800 : Nat) < 4294967296 ∧ (2147483648 : Nat) < 4294967296
      ∧ NtpTimestamp.toDateTime ByteOrder.big { seconds := 2208988800, fraction := 2147483648 }
        = QDateTime.fromMSecsSinceEpoch 500 :=
  ⟨by decide, by decide,
    (toDateTime_decoding ByteOrder.big { seconds := 2208988800, fraction := 2147483648 }
      (by decide) (by decide)).trans (by decide)⟩

/-- C9, refuted as stated: at NTP millisecond 2 the fraction field is
`8589934`, while the nearest integer to `2 * 2^32 / 1000 = 8589934.592` is
`8589935`. -/
theorem fromDateTime_round_counterexample :
    beValue32 (store32 ByteOrder.little (NtpTimestamp.fromDateTime ByteOrder.little
        (QDateTime.valid (2 - 2208988800000) TimeSpec.UTC)).fraction) = 8589934
      ∧ round ((2 : ℚ) * 4294967296 / 1000) % 4294967296 = 8589935
      ∧ ((beValue32 (store32 ByteOrder.little (NtpTimestamp.fromDateTime ByteOrder.little
        (QDateTime.valid (2 - 2208988800000) TimeSpec.UTC)).fraction) : Nat) : Int)
        ≠ round ((2 : ℚ) * 4294967296 / 1000) % 4294967296 := by
  have hr : round ((2 : ℚ) * 4294967296 / 1000) = 8589935 := by
    rw [round_eq, Int.floor_eq_iff]
    constructor <;> norm_num
  have hv : beValue32 (store32 ByteOrder.little (NtpTimestamp.fromDateTime ByteOrder.little
      (QDateTime.valid (2 - 2208988800000) TimeSpec.UTC)).fraction) = 8589934 := by
    decide
  rw [hr, hv]
  refine ⟨rfl, by decide, by decide⟩

/-- C9 (amended): for every date-time at or after the NTP epoch whose NTP
millisecond count `ms` fits a signed 64-bit integer, with `r = ms mod 1000`,
the fraction field of `fromDateTime` is `floor(r * 2^32 / 1000)`, the greatest
integer not above `r * 2^32 / 1000` (already below `2^32`); it is the nearest
integer exactly when the remainder of `r * 2^32` modulo 1000 is below 500. -/
theorem fromDateTime_fraction_floor (e : ByteOrder) (ms : Int) (spec : TimeSpec)
    (h0 : 0 ≤ ms) (hhi : ms < 9223372036854775808) :
    ((beValue32 (store32 e (NtpTimestamp.fromDateTime e
        (QDateTime.valid (ms - 2208988800000) spec)).fraction) : Nat) : Int)
        = ⌊((ms % 1000 : Int) : ℚ) * 4294967296 / 1000⌋
      ∧ (((beValue32 (store32 e (NtpTimestamp.fromDateTime e
        (QDateTime.valid (ms - 2208988800000) spec)).fraction) : Nat) : Int)
          = round (((ms % 1000 : Int) : ℚ) * 4294967296 / 1000)
        ↔ 4294967296 * (ms % 1000) % 1000 < 500) := by
  rw [fromDateTime_fields e ms spec (by omega) hhi]
  simp only [store32_qToBigEndian]
  rw [Int.tmod_eq_emod h0 (by decide)]
  have hr0 : 0 ≤ ms % 1000 := by omega
  have hr1 : ms % 1000 < 1000 := by omega
  generalize ms % 1000 = r at *
  obtain ⟨hF0, hF1⟩ := fraction_bounds r hr0 hr1
  rw [Int.tdiv_eq_ediv (by omega) (by decide), beValue32_beBytes32 _ (toU32_lt _)]
  have hu : ((toU32 (4294967296 * r / 1000) : Nat) : Int) = 4294967296 * r / 1000 := by
    unfold toU32
    omega
  rw [hu]
  have hfloor : ⌊(r : ℚ) * 4294967296 / 1000⌋ = 4294967296 * r / 1000 := by
    have h := Rat.floor_intCast_div_natCast (4294967296 * r) 1000
    have hc : ((4294967296 * r : Int) : ℚ) / ((1000 : Nat) : ℚ) = (r : ℚ) * 4294967296 / 1000 := by
      push_cast
      ring
    rw [hc] at h
    exact h
  have hround : round ((r : ℚ) * 4294967296 / 1000) = (2 * (4294967296 * r) + 1000) / 2000 := by
    rw [round_eq]
    have h := Rat.floor_intCast_div_natCast (2 * (4294967296 * r) + 1000) 2000
    have hc : ((2 * (4294967296 * r) + 1000 : Int) : ℚ) / ((2000 : Nat) : ℚ)
        = (r : ℚ) * 4294967296 / 1000 + 1 / 2 := by
      push_cast
      ring
    rw [hc] at h
    exact h
  rw [hfloor, hround]
  refine ⟨rfl, ?_⟩
  clear hfloor hround hu hF0 hF1 hr0 hr1
  generalize 4294967296 * r = X
  constructor <;> intro h <;> omega

/-- Witness of C9 (amended) at NTP millisecond 2. -/
theorem fromDateTime_fraction_floor_witness :
    (0 : Int) ≤ 2 ∧ (2 : Int) < 9223372036854775808
      ∧ ((beValue32 (store32 ByteOrder.little (NtpTimestamp.fromDateTime ByteOrder.little
        (QDateTime.valid (2 - 2208988800000) TimeSpec.UTC)).fraction) : Nat) : Int)
        = ⌊(((2 : Int) % 1000 : Int) : ℚ) * 4294967296 / 1000⌋ :=
  ⟨by decide, by decide,
    (fromDateTime_fraction_floor ByteOrder.little 2 TimeSpec.UTC (by decide) (by decide)).1⟩

end qntp

/-! ## The client exchange: the claims -/

namespace qntp

theorem store32_zero (e : ByteOrder) : store32 e 0 = [0, 0, 0, 0] := by
  cases e <;> rfl

/-- On a bound socket `sendRequest` takes one clock reading, makes one write
call (the flags byte as the platform allocates the bit-fields, 39 zero bytes,
the transmit timestamp) and reports whether the write result is
non-negative. -/
theorem sendRequest_bound (c : NtpClient) (address : QHostAddress) (port : Nat)
    (hb : c.bound = true) :
    c.sendRequest address port
      = (decide (0 ≤ c.env.writeResult c.written.length
            { data := NtpPacketFlags.toByte c.env.platform.bitFieldsLowFirst
                  { mode := 3, versionNumber := 4, leapIndicator := 0 }
                :: (List.replicate 39 0 ++ (NtpTimestamp.fromDateTime
                  c.env.platform.byteOrder
                  (QDateTime.valid (c.env.clock c.clockReads) TimeSpec.UTC)).toBytes
                  c.env.platform.byteOrder)
              address := address
              port := port }),
        { c with
          clockReads := c.clockReads + 1
          written := c.written ++
            [{ data := NtpPacketFlags.toByte c.env.platform.bitFieldsLowFirst
                  { mode := 3, versionNumber := 4, leapIndicator := 0 }
                :: (List.replicate 39 0 ++ (NtpTimestamp.fromDateTime
                  c.env.platform.byteOrder
                  (QDateTime.valid (c.env.clock c.clockReads) TimeSpec.UTC)).toBytes
                  c.env.platform.byteOrder)
               address := address
               port := port }] }) := by
  unfold NtpClient.sendRequest
  rw [if_neg (by simp [hb])]
  have htake : ∀ (b : Nat) (t : NtpTimestamp), (b :: (List.replicate 39 0
      ++ t.toBytes c.env.platform.byteOrder)).take sizeofNtpPacket
      = b :: (List.replicate 39 0 ++ t.toBytes c.env.platform.byteOrder) := by
    intro b t
    apply List.take_of_length_le
    cases c.env.platform.byteOrder <;> simp [NtpTimestamp.toBytes, store32, sizeofNtpPacket]
  have hdata : ∀ t : NtpTimestamp, ({ NtpPacket.zero with
        flags := { mode := ClientMode, versionNumber := 4, leapIndicator := 0 }
        transmitTimestamp := t } : NtpPacket).toBytes c.env.platform
      = NtpPacketFlags.toByte c.env.platform.bitFieldsLowFirst
          { mode := 3, versionNumber := 4, leapIndicator := 0 }
        :: (List.replicate 39 0 ++ t.toBytes c.env.platform.byteOrder) := by
    intro t
    simp [NtpPacket.toBytes, NtpPacket.zero, ClientMode, toU8, toU32,
      store32_zero, NtpTimestamp.toBytes, List.replicate]
  simp only [NtpPacket.zero] at hdata
  simp only [NtpClient.currentDateTimeUtc, NtpClient.writeDatagram, NtpPacket.zero, hdata, htake]
  split
  · next h => simp only [decide_eq_false (not_le.mpr h)]
  · next h => simp only [decide_eq_true (not_lt.mp h)]

theorem sendRequest_unbound (c : NtpClient) (address : QHostAddress) (port : Nat)
    (hb : c.bound = false) : c.sendRequest address port = (false, c) := by
  unfold NtpClient.sendRequest
  rw [if_pos (by simp [hb])]

/-- C2: request wire image. For every bound client on a platform whose
compiler allocates bit-fields from the low-order bit, so that the flags are
packed as `(leap << 6) | (version << 3) | mode`, on either host byte order,
and every UTC clock reading `ms` milliseconds after the NTP epoch (`0 ≤ ms`,
and `ms` within the signed 64-bit range the code computes it in),
`sendRequest` hands the socket exactly one datagram, addressed as asked, of
exactly 48 bytes: `0x23`, then 39 zero bytes, then the big-endian encodings of
`floor(ms / 1000) mod 2^32` and of `floor(2^32 * (ms mod 1000) / 1000)`. -/
theorem sendRequest_wire_image (c : NtpClient) (address : QHostAddress) (port : Nat) (ms : Int)
    (hb : c.bound = true) (hbits : c.env.platform.bitFieldsLowFirst = true)
    (hclock : c.env.clock c.clockReads = ms - 2208988800000)
    (h0 : 0 ≤ ms) (hhi : ms < 9223372036854775808) :
    (c.sendRequest address port).2.written
        = c.written ++
          [{ data := 35 :: (List.replicate 39 0
                ++ (beBytes32 (ms / 1000 % 4294967296).toNat
                  ++ beBytes32 (4294967296 * (ms % 1000) / 1000).toNat))
             address := address
             port := port }]
      ∧ (35 :: (List.replicate 39 0
            ++ (beBytes32 (ms / 1000 % 4294967296).toNat
              ++ beBytes32 (4294967296 * (ms % 1000) / 1000).toNat))).length = 48 := by
  rw [sendRequest_bound c address port hb, hclock, hbits]
  rw [fromDateTime_bytes_of_nonneg c.env.platform.byteOrder ms TimeSpec.UTC h0 hhi]
  obtain ⟨hF0, hF1⟩ := fraction_bounds (ms % 1000) (by omega) (by omega)
  have hf : toU32 (4294967296 * (ms % 1000) / 1000) = (4294967296 * (ms % 1000) / 1000).toNat := by
    unfold toU32
    omega
  rw [hf]
  refine ⟨rfl, ?_⟩
  simp [beBytes32]

/-- Witness of C2: the bound client of `exampleEnv` (low-order-first
bit-fields), whose first clock reading is 1.5 s after the NTP epoch, writes
`0x23`, 39 zeros, seconds `1` and fraction `0x80000000`. -/
theorem sendRequest_wire_image_witness :
    ((exampleClient.sendRequest { ip := "192.0.2.1" } 123).2.written.map WriteCall.data)
      = [35 :: (List.replicate 39 0 ++ [0, 0, 0, 1, 128, 0, 0, 0])] :=
  (congrArg (List.map WriteCall.data)
    (sendRequest_wire_image exampleClient { ip := "192.0.2.1" } 123 1500 rfl rfl (by decide)
      (by decide) (by decide)).1).trans (by decide)

/-- The flags byte where the compiler allocates bit-fields from the high-order
bit (the big-endian ABIs): the same request starts with `0x70`, the other 47
bytes being as on the low-order-first platforms. -/
theorem sendRequest_flags_byte_high_first (c : NtpClient) (address : QHostAddress) (port : Nat)
    (hb : c.bound = true) (hbits : c.env.platform.bitFieldsLowFirst = false) :
    (c.sendRequest address port).2.written
      = c.written ++
        [{ data := 112 :: (List.replicate 39 0 ++ (NtpTimestamp.fromDateTime
              c.env.platform.byteOrder
              (QDateTime.valid (c.env.clock c.clockReads) TimeSpec.UTC)).toBytes
              c.env.platform.byteOrder)
           address := address
           port := port }] := by
  rw [sendRequest_bound c address port hb, hbits]
  rfl

end qntp

namespace qntp

/-- A non-negative read result is compared as it is, whatever the width of
`size_t`. -/
theorem ltSizeof_natCast (p : Platform) (n size : Nat) (hn : n < 18446744073709551616) :
    NtpClient.ltSizeof p (n : Int) size = decide (n < size) := by
  unfold NtpClient.ltSizeof toU64
  cases p.sizeT64
  · simp
  · have h : ((n : Int) % 18446744073709551616).toNat = n := by omega
    simp [h]

/-- Reading a datagram into the zeroed 68-byte buffer. -/
theorem readDatagram_datagram (d : List Nat) :
    NtpClient.readDatagram (Incoming.datagram d) NtpFullPacket.zero.bytes sizeofNtpFullPacket
      = (((min d.length 68 : Nat) : Int), d.take 68 ++ List.replicate (68 - d.length) 0) := by
  simp only [NtpClient.readDatagram, NtpFullPacket.zero, sizeofNtpFullPacket, List.drop_replicate]
  congr 3
  omega

/-- The loop skips the datagrams shorter than 48 bytes at the head of the
queue. -/
theorem readLoop_skip_short (c : NtpClient) (shorts : List (List Nat)) (rest : List Incoming)
    (hshort : ∀ s ∈ shorts, s.length < 48) :
    NtpClient.readLoop c (shorts.map Incoming.datagram ++ rest) = NtpClient.readLoop c rest := by
  induction shorts with
  | nil => rfl
  | cons s ss ih =>
    have hs : s.length < 48 := hshort s (List.mem_cons_self _ _)
    have hlt : NtpClient.ltSizeof c.env.platform ((min s.length 68 : Nat) : Int) sizeofNtpPacket
        = true := by
      rw [ltSizeof_natCast _ _ _ (by omega)]
      simp only [sizeofNtpPacket, decide_eq_true_eq]
      omega
    simp only [List.map_cons, List.cons_append, NtpClient.readLoop, readDatagram_datagram, hlt,
      if_true]
    exact ih (fun t ht => hshort t (List.mem_cons_of_mem _ ht))

/-- The loop stops at a datagram of at least 48 bytes. -/
theorem readLoop_accept (c : NtpClient) (d : List Nat) (rest : List Incoming)
    (hd : 48 ≤ d.length) :
    NtpClient.readLoop c (Incoming.datagram d :: rest)
      = ({ packet := { bytes := d.take 68 ++ List.replicate (68 - d.length) 0 },
           destinationTime := QDateTime.valid (c.env.clock c.clockReads) TimeSpec.LocalTime },
         { c with pending := rest, clockReads := c.clockReads + 1 }) := by
  have hlt : NtpClient.ltSizeof c.env.platform ((min d.length 68 : Nat) : Int) sizeofNtpPacket
      = false := by
    rw [ltSizeof_natCast _ _ _ (by omega)]
    simp only [sizeofNtpPacket, decide_eq_false_iff_not]
    omega
  simp only [NtpClient.readLoop, readDatagram_datagram, hlt, NtpClient.currentDateTime]
  rfl

end qntp

namespace qntp

/-- A queue of datagrams that are all shorter than 48 bytes is consumed whole
and gives the null reply. -/
theorem readLoop_all_short (c : NtpClient) (ds : List (List Nat))
    (hshort : ∀ s ∈ ds, s.length < 48) :
    NtpClient.readLoop c (ds.map Incoming.datagram) = (NtpReply.null, { c with pending := [] }) := by
  have h := readLoop_skip_short c ds [] hshort
  rw [List.append_nil] at h
  rw [h]
  rfl

/-- With a 64-bit `size_t` the loop stops at a failed read. -/
theorem readLoop_failure (c : NtpClient) (rest : List Incoming)
    (h64 : c.env.platform.sizeT64 = true) :
    NtpClient.readLoop c (Incoming.failure :: rest)
      = ({ packet := NtpFullPacket.zero,
           destinationTime := QDateTime.valid (c.env.clock c.clockReads) TimeSpec.LocalTime },
         { c with pending := rest, clockReads := c.clockReads + 1 }) := by
  have hlt : NtpClient.ltSizeof c.env.platform (-1) sizeofNtpPacket = false := by
    unfold NtpClient.ltSizeof
    rw [h64]
    decide
  simp only [NtpClient.readLoop, NtpClient.readDatagram, hlt, NtpClient.currentDateTime]
  rfl

/-- A list with an element of length at least 48 splits at the first one. -/
theorem exists_first_long (ds : List (List Nat)) (h : ∃ d ∈ ds, 48 ≤ d.length) :
    ∃ shorts d rest, ds = shorts ++ d :: rest ∧ (∀ s ∈ shorts, s.length < 48)
      ∧ 48 ≤ d.length := by
  induction ds with
  | nil =>
    obtain ⟨d, hd, -⟩ := h
    cases hd
  | cons x xs ih =>
    by_cases hx : 48 ≤ x.length
    · exact ⟨[], x, xs, rfl, fun s hs => absurd hs (List.not_mem_nil s), hx⟩
    · have h2 : ∃ d ∈ xs, 48 ≤ d.length := by
        obtain ⟨d, hd, hlen⟩ := h
        rcases List.mem_cons.mp hd with rfl | hmem
        · exact absurd hlen hx
        · exact ⟨d, hmem, hlen⟩
      obtain ⟨shorts, d, rest, hsplit, hshort, hlen⟩ := ih h2
      refine ⟨x :: shorts, d, rest, by rw [hsplit]; rfl, ?_, hlen⟩
      intro s hs
      rcases List.mem_cons.mp hs with rfl | hmem
      · omega
      · exact hshort s hmem

/-- C3: first valid datagram wins. For a queue `ds` of pending datagrams (every
read returns a length `≥ 0`): (1) when `ds = shorts ++ d :: rest` with every
datagram of `shorts` shorter than 48 bytes and `d` of at least 48 bytes,
`readDatagrams` consumes `shorts` and `d`, leaves `rest` unread and returns the
reply built from `d` (its first 68 bytes, zero-padded) with the clock reading
as destination time; (2) when every datagram is shorter than 48 bytes it
consumes the whole queue and returns the null reply; (3) a reply that is not
null is always built from a datagram of the queue of at least 48 bytes. -/
theorem readDatagrams_first_valid (c : NtpClient) (ds : List (List Nat))
    (hpend : c.pending = ds.map Incoming.datagram) :
    (∀ shorts d rest, ds = shorts ++ d :: rest → (∀ s ∈ shorts, s.length < 48) →
        48 ≤ d.length →
        c.readDatagrams
          = ({ packet := { bytes := d.take 68 ++ List.replicate (68 - d.length) 0 },
               destinationTime :=
                 QDateTime.valid (c.env.clock c.clockReads) TimeSpec.LocalTime },
             { c with pending := rest.map Incoming.datagram, clockReads := c.clockReads + 1 })
          ∧ c.readDatagrams.1.isNull = false)
      ∧ ((∀ s ∈ ds, s.length < 48) →
        c.readDatagrams = (NtpReply.null, { c with pending := [] })
          ∧ c.readDatagrams.1.isNull = true)
      ∧ (c.readDatagrams.1.isNull = false →
        ∃ d ∈ ds, 48 ≤ d.length
          ∧ c.readDatagrams.1.packet.bytes = d.take 68 ++ List.replicate (68 - d.length) 0) := by
  have key : ∀ shorts d rest, ds = shorts ++ d :: rest → (∀ s ∈ shorts, s.length < 48) →
      48 ≤ d.length →
      c.readDatagrams
        = ({ packet := { bytes := d.take 68 ++ List.replicate (68 - d.length) 0 },
             destinationTime := QDateTime.valid (c.env.clock c.clockReads) TimeSpec.LocalTime },
           { c with pending := rest.map Incoming.datagram, clockReads := c.clockReads + 1 }) := by
    intro shorts d rest hsplit hshort hlen
    unfold NtpClient.readDatagrams
    rw [hpend, hsplit, List.map_append, List.map_cons, readLoop_skip_short c shorts _ hshort,
      readLoop_accept c d _ hlen]
  have knull : (∀ s ∈ ds, s.length < 48) →
      c.readDatagrams = (NtpReply.null, { c with pending := [] }) := by
    intro hshort
    unfold NtpClient.readDatagrams
    rw [hpend, readLoop_all_short c ds hshort]
  refine ⟨?_, ?_, ?_⟩
  · intro shorts d rest hsplit hshort hlen
    refine ⟨key shorts d rest hsplit hshort hlen, ?_⟩
    rw [key shorts d rest hsplit hshort hlen]
    rfl
  · intro hshort
    refine ⟨knull hshort, ?_⟩
    rw [knull hshort]
    rfl
  · intro hnn
    by_cases hex : ∃ d ∈ ds, 48 ≤ d.length
    · obtain ⟨shorts, d, rest, hsplit, hshort, hlen⟩ := exists_first_long ds hex
      refine ⟨d, ?_, hlen, ?_⟩
      · rw [hsplit]
        exact List.mem_append_right _ (List.mem_cons_self _ _)
      · rw [key shorts d rest hsplit hshort hlen]
    · have hshort : ∀ s ∈ ds, s.length < 48 := by
        intro s hs
        by_contra hge
        exact hex ⟨s, hs, by omega⟩
      rw [knull hshort] at hnn
      exact absurd hnn (by simp [NtpReply.isNull, NtpReply.null, QDateTime.isNull])

/-- Witness of C3: with a 10-byte datagram, a 48-byte datagram and a 1-byte
datagram pending, the reply is built from the 48-byte one and the 1-byte one
stays in the queue. -/
theorem readDatagrams_first_valid_witness :
    (NtpClient.readDatagrams { exampleClient with
        pending := [Incoming.datagram (List.replicate 10 7),
          Incoming.datagram (List.replicate 48 1), Incoming.datagram [9]] }).1.packet.bytes
        = List.replicate 48 1 ++ List.replicate 20 0
      ∧ (NtpClient.readDatagrams { exampleClient with
        pending := [Incoming.datagram (List.replicate 10 7),
          Incoming.datagram (List.replicate 48 1), Incoming.datagram [9]] }).2.pending
        = [Incoming.datagram [9]] :=
  ⟨(congrArg (fun r => r.1.packet.bytes)
      (((readDatagrams_first_valid { exampleClient with
        pending := [Incoming.datagram (List.replicate 10 7),
          Incoming.datagram (List.replicate 48 1), Incoming.datagram [9]] }
        [List.replicate 10 7, List.replicate 48 1, [9]] rfl).1
        [List.replicate 10 7] (List.replicate 48 1) [[9]] rfl (by decide) (by decide)).1)).trans
      (by decide),
    by decide⟩

end qntp

namespace qntp

/-- C6: the time a reply carries is the local clock, not the server's data.
When the first pending entry that is not a datagram shorter than 48 bytes is a
datagram `d` of at least 48 bytes, the reply of `readDatagrams` is not null and
its destination time is the local-time clock reading taken after that read,
whatever `d` contains; so two clients that accept datagrams (of any contents)
at equal clock readings return equal destination times. -/
theorem readDatagrams_destinationTime_is_clock (c₁ c₂ : NtpClient)
    (shorts₁ shorts₂ : List (List Nat)) (d₁ d₂ : List Nat) (rest₁ rest₂ : List Incoming)
    (hp₁ : c₁.pending = shorts₁.map Incoming.datagram ++ Incoming.datagram d₁ :: rest₁)
    (hp₂ : c₂.pending = shorts₂.map Incoming.datagram ++ Incoming.datagram d₂ :: rest₂)
    (hs₁ : ∀ s ∈ shorts₁, s.length < 48) (hs₂ : ∀ s ∈ shorts₂, s.length < 48)
    (hd₁ : 48 ≤ d₁.length) (hd₂ : 48 ≤ d₂.length)
    (hclock : c₁.env.clock c₁.clockReads = c₂.env.clock c₂.clockReads) :
    c₁.readDatagrams.1.isNull = false
      ∧ c₁.readDatagrams.1.destinationTime
        = QDateTime.valid (c₁.env.clock c₁.clockReads) TimeSpec.LocalTime
      ∧ c₁.readDatagrams.1.destinationTime = c₂.readDatagrams.1.destinationTime := by
  have e₁ : c₁.readDatagrams
      = ({ packet := { bytes := d₁.take 68 ++ List.replicate (68 - d₁.length) 0 },
           destinationTime := QDateTime.valid (c₁.env.clock c₁.clockReads) TimeSpec.LocalTime },
         { c₁ with pending := rest₁, clockReads := c₁.clockReads + 1 }) := by
    unfold NtpClient.readDatagrams
    rw [hp₁, readLoop_skip_short c₁ shorts₁ _ hs₁, readLoop_accept c₁ d₁ _ hd₁]
  have e₂ : c₂.readDatagrams
      = ({ packet := { bytes := d₂.take 68 ++ List.replicate (68 - d₂.length) 0 },
           destinationTime := QDateTime.valid (c₂.env.clock c₂.clockReads) TimeSpec.LocalTime },
         { c₂ with pending := rest₂, clockReads := c₂.clockReads + 1 }) := by
    unfold NtpClient.readDatagrams
    rw [hp₂, readLoop_skip_short c₂ shorts₂ _ hs₂, readLoop_accept c₂ d₂ _ hd₂]
  rw [e₁, e₂]
  refine ⟨rfl, rfl, ?_⟩
  show QDateTime.valid _ _ = QDateTime.valid _ _
  rw [hclock]

/-- Witness of C6: two 48-byte datagrams with different contents, read at the
same clock reading, give the same destination time, the clock reading. -/
theorem readDatagrams_destinationTime_is_clock_witness :
    List.replicate 48 1 ≠ List.replicate 48 2
      ∧ (NtpClient.readDatagrams { exampleClient with
          pending := [Incoming.datagram (List.replicate 48 1)] }).1.destinationTime
        = QDateTime.valid (1500 - 2208988800000) TimeSpec.LocalTime
      ∧ (NtpClient.readDatagrams { exampleClient with
          pending := [Incoming.datagram (List.replicate 48 1)] }).1.destinationTime
        = (NtpClient.readDatagrams { exampleClient with
          pending := [Incoming.datagram (List.replicate 48 2)] }).1.destinationTime :=
  ⟨by decide,
    ((readDatagrams_destinationTime_is_clock
      { exampleClient with pending := [Incoming.datagram (List.replicate 48 1)] }
      { exampleClient with pending := [Incoming.datagram (List.replicate 48 2)] }
      [] [] (List.replicate 48 1) (List.replicate 48 2) [] [] rfl rfl
      (fun s hs => absurd hs (List.not_mem_nil s)) (fun s hs => absurd hs (List.not_mem_nil s))
      (by decide) (by decide) rfl).2.1).trans (by decide),
    (readDatagrams_destinationTime_is_clock
      { exampleClient with pending := [Incoming.datagram (List.replicate 48 1)] }
      { exampleClient with pending := [Incoming.datagram (List.replicate 48 2)] }
      [] [] (List.replicate 48 1) (List.replicate 48 2) [] [] rfl rfl
      (fun s hs => absurd hs (List.not_mem_nil s)) (fun s hs => absurd hs (List.not_mem_nil s))
      (by decide) (by decide) rfl).2.2⟩

/-- C10: a failed read is not treated as a short datagram. With a 64-bit
unsigned `size_t`, the result `-1` of a failed read is compared as
`2^64 - 1`, which is not below 48: when the first pending entry that is not a
short datagram is a failed read, `readDatagrams` stops there and returns a
reply that is not null, with the all-zero packet and the local clock reading
as destination time, leaving the rest of the queue unread. -/
theorem readDatagrams_failed_read_gives_reply (c : NtpClient) (shorts : List (List Nat))
    (rest : List Incoming) (h64 : c.env.platform.sizeT64 = true)
    (hpend : c.pending = shorts.map Incoming.datagram ++ Incoming.failure :: rest)
    (hshort : ∀ s ∈ shorts, s.length < 48) :
    toU64 (-1) = 18446744073709551615
      ∧ NtpClient.ltSizeof c.env.platform (-1) sizeofNtpPacket = false
      ∧ c.readDatagrams
        = ({ packet := { bytes := List.replicate 68 0 },
             destinationTime := QDateTime.valid (c.env.clock c.clockReads) TimeSpec.LocalTime },
           { c with pending := rest, clockReads := c.clockReads + 1 })
      ∧ c.readDatagrams.1.isNull = false := by
  have e : c.readDatagrams
      = ({ packet := { bytes := List.replicate 68 0 },
           destinationTime := QDateTime.valid (c.env.clock c.clockReads) TimeSpec.LocalTime },
         { c with pending := rest, clockReads := c.clockReads + 1 }) := by
    unfold NtpClient.readDatagrams
    rw [hpend, readLoop_skip_short c shorts _ hshort, readLoop_failure c _ h64]
    rfl
  refine ⟨by decide, ?_, e, ?_⟩
  · unfold NtpClient.ltSizeof
    rw [h64]
    decide
  · rw [e]
    rfl

/-- Witness of C10: a failed read followed by a valid datagram gives a reply
with the zero packet, and the valid datagram stays unread. -/
theorem readDatagrams_failed_read_gives_reply_witness :
    (NtpClient.readDatagrams { exampleClient with
        pending := [Incoming.failure, Incoming.datagram (List.replicate 48 1)] }).1
        = { packet := { bytes := List.replicate 68 0 },
            destinationTime := QDateTime.valid (1500 - 2208988800000) TimeSpec.LocalTime } :=
  (congrArg Prod.fst (readDatagrams_failed_read_gives_reply
    { exampleClient with pending := [Incoming.failure, Incoming.datagram (List.replicate 48 1)] }
    [] [Incoming.datagram (List.replicate 48 1)] rfl rfl
    (fun s hs => absurd hs (List.not_mem_nil s))).2.2.1).trans (by decide)

end qntp

namespace qntp

/-- C5: failure is a null reply and stops the exchange. `sendRequestBlock`
returns the null reply and reads no datagram (the queue of pending datagrams
is untouched) (a) when the socket is not bound: then the client is left
exactly as it was, so nothing is written and nothing is waited for; (b) when
the socket is bound and the write of the request `w` reports a negative
result: then there is no wait; (c) when `sendRequest` succeeds and the wait
does not succeed within `timeoutMSec`. -/
theorem sendRequestBlock_failure_is_null (c : NtpClient) (address : QHostAddress) (port : Nat)
    (timeoutMSec : Int) :
    (c.bound = false →
        c.sendRequestBlock address port timeoutMSec = (NtpReply.null, c))
      ∧ (∀ w, c.bound = true → (c.sendRequest address port).2.written = c.written ++ [w] →
          c.env.writeResult c.written.length w < 0 →
          (c.sendRequestBlock address port timeoutMSec).1 = NtpReply.null
            ∧ (c.sendRequestBlock address port timeoutMSec).1.isNull = true
            ∧ (c.sendRequestBlock address port timeoutMSec).2.pending = c.pending
            ∧ (c.sendRequestBlock address port timeoutMSec).2.waits = c.waits
            ∧ (c.sendRequestBlock address port timeoutMSec).2.written = c.written ++ [w])
      ∧ ((c.sendRequest address port).1 = true → c.env.readyRead c.waits timeoutMSec = none →
          (c.sendRequestBlock address port timeoutMSec).1 = NtpReply.null
            ∧ (c.sendRequestBlock address port timeoutMSec).1.isNull = true
            ∧ (c.sendRequestBlock address port timeoutMSec).2.pending = c.pending
            ∧ (c.sendRequestBlock address port timeoutMSec).2.waits = c.waits + 1) := by
  refine ⟨?_, ?_, ?_⟩
  · intro hb
    unfold NtpClient.sendRequestBlock
    simp only [sendRequest_unbound c address port hb, if_true]
  · intro w hb hw hres
    rw [sendRequest_bound c address port hb] at hw
    have hw2 := List.append_cancel_left hw
    simp only [List.cons.injEq, and_true] at hw2
    unfold NtpClient.sendRequestBlock
    rw [sendRequest_bound c address port hb, hw2]
    simp only [decide_eq_false (not_le.mpr hres), if_true]
    refine ⟨?_, ?_, ?_, ?_, ?_⟩ <;> trivial
  · intro hok hwait
    have hpend : (c.sendRequest address port).2.pending = c.pending := by
      cases hb : c.bound
      · rw [sendRequest_unbound c address port hb]
      · rw [sendRequest_bound c address port hb]
    have hwaits : (c.sendRequest address port).2.waits = c.waits := by
      cases hb : c.bound
      · rw [sendRequest_unbound c address port hb]
      · rw [sendRequest_bound c address port hb]
    have henv : (c.sendRequest address port).2.env = c.env := by
      cases hb : c.bound
      · rw [sendRequest_unbound c address port hb]
      · rw [sendRequest_bound c address port hb]
    unfold NtpClient.sendRequestBlock
    simp only [hok, Bool.true_eq_false, if_false, NtpClient.waitForReadyRead, henv, hwaits, hwait,
      if_true, hpend]
    refine ⟨?_, ?_, ?_, ?_⟩ <;> trivial

/-- Witness of C5: an unbound client, a client whose write fails, and the
client of `exampleEnv` whose first wait times out all get the null reply. -/
theorem sendRequestBlock_failure_is_null_witness :
    (NtpClient.sendRequestBlock { exampleClient with bound := false }
        { ip := "192.0.2.1" } 123 1000).1 = NtpReply.null
      ∧ (NtpClient.sendRequestBlock
        { exampleClient with env := { exampleEnv with writeResult := fun _ _ => -1 } }
        { ip := "192.0.2.1" } 123 1000).1 = NtpReply.null
      ∧ (NtpClient.sendRequestBlock exampleClient { ip := "192.0.2.1" } 123 1000).1
        = NtpReply.null :=
  ⟨congrArg Prod.fst
      ((sendRequestBlock_failure_is_null { exampleClient with bound := false }
        { ip := "192.0.2.1" } 123 1000).1 rfl),
    ((sendRequestBlock_failure_is_null
        { exampleClient with env := { exampleEnv with writeResult := fun _ _ => -1 } }
        { ip := "192.0.2.1" } 123 1000).2.1
        { data := 35 :: (List.replicate 39 0 ++ [0, 0, 0, 1, 128, 0, 0, 0]),
          address := { ip := "192.0.2.1" }, port := 123 }
        rfl (by decide) (by decide)).1,
    ((sendRequestBlock_failure_is_null exampleClient { ip := "192.0.2.1" } 123 1000).2.2
        (by decide) rfl).1⟩

end qntp

/-! ## The orchestrator: the claim -/

namespace qntp

theorem readLoop_env_written (c : NtpClient) (l : List Incoming) :
    (NtpClient.readLoop c l).2.env = c.env ∧ (NtpClient.readLoop c l).2.written = c.written := by
  induction l with
  | nil => exact ⟨rfl, rfl⟩
  | cons x xs ih =>
    unfold NtpClient.readLoop
    simp only []
    split
    · exact ih
    · exact ⟨rfl, rfl⟩

/-- One exchange keeps the environment and makes at most one write call, to the
address asked for. -/
theorem sendRequestBlock_env_written (c : NtpClient) (a : QHostAddress) (port : Nat) (t : Int) :
    (c.sendRequestBlock a port t).2.env = c.env
      ∧ ∃ l, (c.sendRequestBlock a port t).2.written = c.written ++ l
        ∧ (l.map WriteCall.address).Sublist [a] := by
  have hs : (c.sendRequest a port).2.env = c.env
      ∧ ∃ l, (c.sendRequest a port).2.written = c.written ++ l
        ∧ (l.map WriteCall.address).Sublist [a] := by
    cases hb : c.bound
    · rw [sendRequest_unbound c a port hb]
      exact ⟨rfl, [], (List.append_nil _).symm, List.nil_sublist _⟩
    · rw [sendRequest_bound c a port hb]
      exact ⟨rfl, _, rfl, List.Sublist.refl _⟩
  obtain ⟨henv, l, hl, hsub⟩ := hs
  unfold NtpClient.sendRequestBlock
  simp only []
  split
  · exact ⟨henv, l, hl, hsub⟩
  · have hw : ((c.sendRequest a port).2.waitForReadyRead t).2.env = c.env
        ∧ ((c.sendRequest a port).2.waitForReadyRead t).2.written
          = (c.sendRequest a port).2.written := by
      unfold NtpClient.waitForReadyRead
      split <;> exact ⟨henv, rfl⟩
    split
    · exact ⟨hw.1, l, hw.2.trans hl, hsub⟩
    · unfold NtpClient.readDatagrams
      obtain ⟨h1, h2⟩ := readLoop_env_written ((c.sendRequest a port).2.waitForReadyRead t).2
        ((c.sendRequest a port).2.waitForReadyRead t).2.pending
      exact ⟨h1.trans hw.1, l, (h2.trans hw.2).trans hl, hsub⟩

end qntp

namespace NetworkTime

open qntp

theorem allNull_append (c : NtpClient) (xs ys : List QHostAddress) :
    allNull c (xs ++ ys) = (allNull c xs).bind (fun c₁ => allNull c₁ ys) := by
  induction xs generalizing c with
  | nil => rfl
  | cons x xs ih =>
    simp only [List.cons_append, allNull]
    split
    · exact ih _
    · rfl

/-- A run of null replies keeps the environment and writes at most one
datagram per address, in order. -/
theorem allNull_env_written (c c₀ : NtpClient) (xs : List QHostAddress)
    (h : allNull c xs = some c₀) :
    c₀.env = c.env
      ∧ ∃ l, c₀.written = c.written ++ l ∧ (l.map WriteCall.address).Sublist xs := by
  induction xs generalizing c with
  | nil =>
    simp only [allNull, Option.some.injEq] at h
    subst h
    exact ⟨rfl, [], (List.append_nil _).symm, List.nil_sublist _⟩
  | cons x xs ih =>
    simp only [allNull] at h
    split at h
    · obtain ⟨henv, l, hl, hsub⟩ := ih _ h
      obtain ⟨henv1, l1, hl1, hsub1⟩ := sendRequestBlock_env_written c x 123 1000
      refine ⟨henv.trans henv1, l1 ++ l, ?_, ?_⟩
      · rw [hl, hl1, List.append_assoc]
      · rw [List.map_append]
        exact List.Sublist.append hsub1 hsub
    · cases h

/-- The inner loop returns at the first address whose reply is not null. -/
theorem tryAddresses_spec (c : NtpClient) (xs : List QHostAddress) :
    (∃ pre a post c₀, xs = pre ++ a :: post ∧ allNull c pre = some c₀
        ∧ (c₀.sendRequestBlock a 123 1000).1.isNull = false
        ∧ tryAddresses c xs = (some (c₀.sendRequestBlock a 123 1000).1.destinationTime,
            (c₀.sendRequestBlock a 123 1000).2))
      ∨ (∃ c₁, allNull c xs = some c₁ ∧ tryAddresses c xs = (none, c₁)) := by
  induction xs generalizing c with
  | nil => exact Or.inr ⟨c, rfl, rfl⟩
  | cons x xs ih =>
    by_cases hn : (c.sendRequestBlock x 123 1000).1.isNull = false
    · refine Or.inl ⟨[], x, xs, c, rfl, rfl, hn, ?_⟩
      simp only [tryAddresses, hn, if_true]
    · have hn1 : (c.sendRequestBlock x 123 1000).1.isNull = true := by
        simpa using hn
      rcases ih (c.sendRequestBlock x 123 1000).2 with
        ⟨pre, a, post, c₀, hsplit, hall, hnn, htry⟩ | ⟨c₁, hall, htry⟩
      · refine Or.inl ⟨x :: pre, a, post, c₀, by rw [hsplit]; rfl, ?_, hnn, ?_⟩
        · simp only [allNull, hn1, if_true, hall]
        · simp only [tryAddresses, hn1, Bool.true_eq_false, if_false, htry]
      · refine Or.inr ⟨c₁, ?_, ?_⟩
        · simp only [allNull, hn1, if_true, hall]
        · simp only [tryAddresses, hn1, Bool.true_eq_false, if_false, htry]

/-- The outer loop over the server names is the same search over the flattened
list of addresses. -/
theorem tryUrls_spec (c : NtpClient) (urls : List String) :
    (∃ pre a post c₀, (urls.map c.env.addresses).flatten = pre ++ a :: post
        ∧ allNull c pre = some c₀
        ∧ (c₀.sendRequestBlock a 123 1000).1.isNull = false
        ∧ tryUrls c urls = ((c₀.sendRequestBlock a 123 1000).1.destinationTime,
            (c₀.sendRequestBlock a 123 1000).2))
      ∨ (∃ c₁, allNull c (urls.map c.env.addresses).flatten = some c₁
        ∧ tryUrls c urls = (QDateTime.null, c₁)) := by
  induction urls generalizing c with
  | nil => exact Or.inr ⟨c, rfl, rfl⟩
  | cons u us ih =>
    rcases tryAddresses_spec c (c.env.addresses u) with
      ⟨pre, a, post, c₀, hsplit, hall, hnn, htry⟩ | ⟨c₁, hall, htry⟩
    · refine Or.inl ⟨pre, a, post ++ (us.map c.env.addresses).flatten, c₀, ?_, hall, hnn, ?_⟩
      · simp only [List.map_cons, List.flatten_cons, hsplit, List.append_assoc, List.cons_append]
      · simp only [tryUrls, htry]
    · have henv : c₁.env = c.env := (allNull_env_written c c₁ _ hall).1
      have hstep : tryUrls c (u :: us) = tryUrls c₁ us := by
        simp only [tryUrls, htry]
      rcases ih c₁ with ⟨pre, a, post, c₀, hsplit, hall2, hnn, htry2⟩ | ⟨c₂, hall2, htry2⟩
      · rw [henv] at hsplit
        refine Or.inl ⟨c.env.addresses u ++ pre, a, post, c₀, ?_, ?_, hnn, ?_⟩
        · simp only [List.map_cons, List.flatten_cons, hsplit, List.append_assoc]
        · rw [allNull_append, hall]
          exact hall2
        · rw [hstep, htry2]
      · rw [henv] at hall2
        refine Or.inr ⟨c₂, ?_, ?_⟩
        · simp only [List.map_cons, List.flatten_cons]
          rw [allNull_append, hall]
          exact hall2
        · rw [hstep, htry2]

/-- C4: `current` tries the candidates strictly in order, each with
`sendRequestBlock(address, 123, 1000)`. Either the candidate list splits as
`pre ++ a :: post` where every candidate of `pre`, tried in order, gave a null
reply and `a` gave a reply that is not null: then the result is that reply's
destination time (not null), the client is left as that exchange left it, and
the datagrams written went, in order and at most one each, to candidates of
`pre ++ [a]`, none to `post`; or every candidate gave a null reply (in
particular when no name resolves to an address) and the result is the null
date-time. -/
theorem current_first_non_null_reply (env : Env) :
    (∃ pre a post c₀, candidates env = pre ++ a :: post
        ∧ allNull (NtpClient.create env) pre = some c₀
        ∧ (c₀.sendRequestBlock a 123 1000).1.isNull = false
        ∧ current env = ((c₀.sendRequestBlock a 123 1000).1.destinationTime,
            (c₀.sendRequestBlock a 123 1000).2)
        ∧ (current env).1.isNull = false
        ∧ ((current env).2.written.map WriteCall.address).Sublist (pre ++ [a]))
      ∨ (∃ c₁, allNull (NtpClient.create env) (candidates env) = some c₁
        ∧ current env = (QDateTime.null, c₁)
        ∧ (current env).1.isNull = true) := by
  rcases tryUrls_spec (NtpClient.create env) ntpServerUrls with
    ⟨pre, a, post, c₀, hsplit, hall, hnn, htry⟩ | ⟨c₁, hall, htry⟩
  · refine Or.inl ⟨pre, a, post, c₀, hsplit, hall, hnn, htry, ?_, ?_⟩
    · unfold current
      rw [htry]
      exact hnn
    · obtain ⟨-, l, hl, hsub⟩ := allNull_env_written _ _ _ hall
      obtain ⟨-, l1, hl1, hsub1⟩ := sendRequestBlock_env_written c₀ a 123 1000
      unfold current
      rw [htry]
      simp only [hl1, hl, NtpClient.create, List.nil_append, List.map_append]
      exact List.Sublist.append hsub hsub1
  · refine Or.inr ⟨c₁, hall, htry, ?_⟩
    unfold current
    rw [htry]
    rfl

/-- A worked instance in `exampleEnv`: the first candidate times out, the
second answers; the result is the local clock reading at the read, and
requests went to the first two candidates only. -/
theorem current_exampleEnv :
    (current exampleEnv).1 = QDateTime.valid (3500 - 2208988800000) TimeSpec.LocalTime
      ∧ (current exampleEnv).2.written.map WriteCall.address
        = [{ ip := "s1a.time.edu.cn" }, { ip := "s1b.time.edu.cn" }] := by
  decide

end NetworkTime
